import Mathlib

set_option maxRecDepth 4000

namespace Invoker

/-!
Verification development for the invoker resource synchronization engine
(resource_manager.py, project.py, util.py), as a shallow embedding.
File contents are lists of characters, filesystem state is an association
list from absolute paths (segment lists) to contents, and every operation
is an executable Lean function mirroring the corresponding Python
function.  External library calls (hashlib.md5, CPython ast.parse, the
missing templates/header.txt data file) are modelled and documented at
their definition sites.
-/

deriving instance DecidableEq for Except

abbrev Chars := List Char

/-- Boolean list equality based membership free helpers: prefixB l s decides
whether l is an initial segment of s, using decidable equality. -/
def prefixB {α : Type} [DecidableEq α] : List α → List α → Bool
  | [], _ => true
  | _ :: _, [] => false
  | a :: as, b :: bs => if a = b then prefixB as bs else false

/-- Suffix test via reversal. -/
def endsWithB {α : Type} [DecidableEq α] (suf s : List α) : Bool :=
  prefixB suf.reverse s.reverse

/-- Characters treated as whitespace by the model of str.strip(). -/
def isSpaceChar (c : Char) : Bool :=
  c == ' ' || c == '\t' || c == '\n' || c == '\r' || c == '\x0b' || c == '\x0c'

/-- A line is blank when line.strip() == "" in the Python source. -/
def isBlankLine (l : Chars) : Bool := l.all isSpaceChar

/-- Model of text.splitlines(keepends=True) for newline terminated text. -/
def splitLines : Chars → List Chars
  | [] => []
  | c :: rest =>
    if c = '\n' then ['\n'] :: splitLines rest
    else
      match splitLines rest with
      | [] => [[c]]
      | l :: ls => (c :: l) :: ls

/-- Model of "".join(lines). -/
def joinChars (ls : List Chars) : Chars := ls.flatten

/-- Model of str.strip(): drop whitespace from both ends. -/
def trimChars (s : Chars) : Chars :=
  ((s.dropWhile isSpaceChar).reverse.dropWhile isSpaceChar).reverse

/-- Substring containment, the Python `needle in haystack` test. -/
def containsSub (needle : Chars) : Chars → Bool
  | [] => prefixB needle []
  | c :: rest => prefixB needle (c :: rest) || containsSub needle rest

/-- Model of str.lower() restricted to ASCII, used by the editable install
heuristic. -/
def lowerChars (s : Chars) : Chars := s.map Char.toLower

/-!
HashEngine.  Modelled from the spec: the source calls hashlib.md5, an
external library primitive.  Spec section 4.1 requires only a
deterministic 128 bit digest rendered as 32 hex characters, used for
content identity; a deterministic 128 bit polynomial rolling digest
stands in for md5 here (ResourceManager._compute_hash,
resource_manager.py lines 213-217).
-/

def md5Nat (s : Chars) : Nat :=
  s.foldl (fun a c => (a * 16777619 + c.toNat + 1) % (2 ^ 128)) 14695981039346656037

def hexCharsList : Chars := "0123456789abcdef".toList

def hexDigitChar (k : Nat) : Char := hexCharsList.getD k '0'

def natToHex32 (n : Nat) : Chars :=
  (List.range 32).map (fun i => hexDigitChar (n / 16 ^ (31 - i) % 16))

/-- Model of ResourceManager._compute_hash: digest of raw content as 32
lowercase hex characters. -/
def computeHash (s : Chars) : Chars := natToHex32 (md5Nat s)

/-- The hex alphabet of the header regex group [0-9a-f]. -/
def isHexLowerChar (c : Char) : Bool := c.isDigit || ('a' ≤ c && c ≤ 'f')

/-!
HeaderCodec.  The header template file templates/header.txt is not part
of the src snapshot.  Modelled from the spec: section 6 fixes the format
line for line (banner with tool version, do-not-edit warning, resource
reference line, date line YYYY-MM-DD, tab separated hash line, each a
line leading # comment), and the test-suite asserts the exact literals
("# Invoker: v", "# DO NOT MANUALLY EDIT THIS FILE.",
"# Resource name: {resource}\n", "# Date: {date}\n", "# Hash:\t{hash}\n").
-/

def hdrLine1Start : Chars := "# Invoker: v".toList

def hdrLine2 : Chars := "# DO NOT MANUALLY EDIT THIS FILE.".toList

def hdrLine3Start : Chars := "# Resource name: ".toList

def hdrLine4Start : Chars := "# Date: ".toList

def hdrLine5Start : Chars := "# Hash:\t".toList

/-- Number of lines of the header template, len(template.splitlines()). -/
def headerTemplateNumLines : Nat := 5

/-- The header template instantiated with concrete field values, the text
prepended by materialization with signing. -/
def headerText (v res d h : Chars) : Chars :=
  hdrLine1Start ++ v ++ '\n' ::
    (hdrLine2 ++ '\n' ::
      (hdrLine3Start ++ res ++ '\n' ::
        (hdrLine4Start ++ d ++ '\n' ::
          (hdrLine5Start ++ h ++ ['\n']))))

/-- The version of the installed tool, metadata.version("invoker"); the
concrete value is declared in setup.py. -/
def invokerVersion : Chars := "0.2.0".toList

structure HeaderFields where
  version : Chars
  resource : Chars
  date : Chars
  hash : Chars
deriving DecidableEq, Repr

/-- Literal matcher: consumes an exact prefix. -/
def expectLit : Chars → Chars → Option Chars
  | [], s => some s
  | _ :: _, [] => none
  | c :: cs, d :: ds => if c = d then expectLit cs ds else none

/-- Maximal munch of a character class, the regex x+ followed by a literal
that is outside the class. -/
def spanGo (p : Char → Bool) : Chars → Chars × Chars
  | [] => ([], [])
  | c :: s =>
    if p c then
      let pr := spanGo p s
      (c :: pr.1, pr.2)
    else ([], c :: s)

/-- The regex \d+ : one or more digits, maximal munch. -/
def digits1 (s : Chars) : Option (Chars × Chars) :=
  match spanGo Char.isDigit s with
  | ([], _) => none
  | (ds, r) => some (ds, r)

/-- The capture group (?P<version>\d+\.\d+\.\d+). -/
def parseVersionChars (s : Chars) : Option (Chars × Chars) := do
  let (d1, r1) ← digits1 s
  let r2 ← expectLit ['.'] r1
  let (d2, r3) ← digits1 r2
  let r4 ← expectLit ['.'] r3
  let (d3, r5) ← digits1 r4
  some (d1 ++ '.' :: d2 ++ '.' :: d3, r5)

/-- Exactly n characters of a class, the regex x{n}. -/
def parseNWhile (p : Char → Bool) : Nat → Chars → Option (Chars × Chars)
  | 0, s => some ([], s)
  | _ + 1, [] => none
  | n + 1, c :: s =>
    if p c then (parseNWhile p n s).map (fun pr => (c :: pr.1, pr.2)) else none

/-- Embeds ResourceManager.parse_invoker_header (resource_manager.py lines
165-194): the regex is mechanically derived from the header template by
escaping literal text and substituting the named groups
(?P<version>\d+\.\d+\.\d+), (?P<resource>[^\n]+), (?P<date>\d{4}-\d{2}-\d{2})
and (?P<hash>[0-9a-f]{32}); this parser is that regex, anchored at the
start of the text, written structurally over the modelled template.
Returns the captured fields when the header matches, none otherwise
(the Python function returns (0, dict()) for no match and
(5, fields) for a match). -/
def parseInvokerHeader (text : Chars) : Option HeaderFields := do
  let r1 ← expectLit hdrLine1Start text
  let (v, r2) ← parseVersionChars r1
  let r3 ← expectLit ('\n' :: hdrLine2) r2
  let r4 ← expectLit ('\n' :: hdrLine3Start) r3
  let res := r4.takeWhile (fun c => !(c == '\n'))
  let r5 := r4.dropWhile (fun c => !(c == '\n'))
  if res.isEmpty then none
  else do
    let r6 ← expectLit ('\n' :: hdrLine4Start) r5
    let (y, r7) ← parseNWhile Char.isDigit 4 r6
    let r8 ← expectLit ['-'] r7
    let (mo, r9) ← parseNWhile Char.isDigit 2 r8
    let r10 ← expectLit ['-'] r9
    let (dd, r11) ← parseNWhile Char.isDigit 2 r10
    let r12 ← expectLit ('\n' :: hdrLine5Start) r11
    let (h, r13) ← parseNWhile isHexLowerChar 32 r12
    match r13 with
    | '\n' :: _ => some ⟨v, res, y ++ '-' :: mo ++ '-' :: dd, h⟩
    | _ => none

/-- Embeds ResourceManager.strip_invoker_header (resource_manager.py lines
196-211): when a header is present, drop its lines and any wholly blank
lines immediately following; otherwise return the lines unchanged. -/
def stripInvokerHeader (text : Chars) : List Chars :=
  let lines := splitLines text
  match parseInvokerHeader text with
  | none => lines
  | some _ => (lines.drop headerTemplateNumLines).dropWhile isBlankLine

inductive Err where
  | unknownNamespace
  | absolutePathNotAllowed
  | pathTraversal
  | forbiddenResource
  | missingHeader
  | resourceNotFound
  | resourceMissingOnDisk
  | backupCollision
  | namespaceRequired
  | namespaceNotEditable
  | moduleInitMissing
  | manifestMissing
  | sourceMissing
  | versionUndetermined
  | versionMismatch
  | fileVanished
deriving DecidableEq, Repr

/-- Embeds ResourceManager.compute_file_hash (resource_manager.py lines
229-241): fails with MissingHeader when the file carries no header,
otherwise returns the stored hash field and the digest of the stripped
body. -/
def computeFileHash (text : Chars) : Except Err (Chars × Chars) :=
  match parseInvokerHeader text with
  | none => .error .missingHeader
  | some fields => .ok (fields.hash, computeHash (joinChars (stripInvokerHeader text)))

/-!
NamespaceRegistry and PathResolver.  Absolute filesystem paths are lists
of name segments; the plugin discovery side (importlib entry points) is
external, so an environment value carries the discovered
namespace-to-root map, the process date, and nothing else.
-/

abbrev Seg := Chars

abbrev AbsPath := List Seg

/-- The registry state: _discover_resource_sources() result (namespace to
resources root directory) plus date.today(), both external inputs of the
process. -/
structure Env where
  sources : List (Chars × AbsPath)
  today : Chars

def lookupSource : List (Chars × AbsPath) → Chars → Option AbsPath
  | [], _ => none
  | (n, r) :: rest, ns => if n = ns then some r else lookupSource rest ns

/-- DEFAULT_NAMESPACE = "invoker" (resource_manager.py line 11). -/
def DEFAULT_NAMESPACE : Chars := "invoker".toList

/-- Embeds ResourceManager._parse_namespaced_path (lines 76-89): split on
the first colon, default namespace when there is none. -/
def parseNamespacedPath (p : Chars) : Chars × Chars :=
  if p.any (fun c => c == ':') then
    (p.takeWhile (fun c => !(c == ':')), (p.dropWhile (fun c => !(c == ':'))).tail)
  else (DEFAULT_NAMESPACE, p)

def dotSeg : Seg := ".".toList

def dotdotSeg : Seg := "..".toList

def testsSeg : Seg := "tests".toList

/-- Split a character list on a separator character. -/
def splitOnCharGo (sep : Char) : Chars → Chars → List Chars
  | acc, [] => [acc.reverse]
  | acc, c :: rest =>
    if c = sep then acc.reverse :: splitOnCharGo sep [] rest
    else splitOnCharGo sep (c :: acc) rest

def splitOnChar (sep : Char) (s : Chars) : List Chars := splitOnCharGo sep [] s

/-- Model of pathlib parsing of a relative path string: leading slash means
absolute; empty and single dot components are dropped at construction,
double dot components are kept. -/
def parseRelPath (rel : Chars) : Bool × List Seg :=
  let isAbs := match rel with
    | '/' :: _ => true
    | _ => false
  (isAbs, (splitOnChar '/' rel).filter (fun s => !s.isEmpty && !(s = dotSeg)))

/-- Model of Path.resolve() path canonicalization: double dot pops the
previous segment, at the filesystem root it stays put (the tree has no
symlinks). -/
def normGo : List Seg → List Seg → List Seg
  | acc, [] => acc.reverse
  | acc, s :: rest =>
    if s = dotdotSeg then normGo acc.tail rest
    else normGo (s :: acc) rest

def normalizeSegs (segs : List Seg) : List Seg := normGo [] segs

/-- candidate.relative_to(root) succeeds exactly when root is an initial
segment run of candidate (equality included). -/
def isUnderB (root p : AbsPath) : Bool := prefixB root p

/-- Embeds ResourceManager._resolve_resource_path (resource_manager.py
lines 102-131): namespace lookup, absolute path refusal, canonicalization,
containment check against the resolved root, and the reserved tests
subtree refusal, in source order. -/
def resolveResourcePath (env : Env) (namespacedPath : Chars) :
    Except Err (Chars × AbsPath) :=
  let ns := (parseNamespacedPath namespacedPath).1
  let rel := (parseNamespacedPath namespacedPath).2
  match lookupSource env.sources ns with
  | none => .error .unknownNamespace
  | some root0 =>
    let root := normalizeSegs root0
    if (parseRelPath rel).1 then .error .absolutePathNotAllowed
    else
      let candidate := normalizeSegs (root ++ (parseRelPath rel).2)
      if isUnderB root candidate then
        if isUnderB (root ++ [testsSeg]) candidate then .error .forbiddenResource
        else .ok (ns, candidate)
      else .error .pathTraversal

/-!
The filesystem and the SyncEngine file operations.
-/

abbrev Fs := List (AbsPath × Chars)

def readFile : Fs → AbsPath → Option Chars
  | [], _ => none
  | (q, c) :: rest, p => if q = p then some c else readFile rest p

def writeFile : Fs → AbsPath → Chars → Fs
  | [], p, c => [(p, c)]
  | (q, d) :: rest, p, c => if q = p then (p, c) :: rest else (q, d) :: writeFile rest p c

def deleteFile : Fs → AbsPath → Fs
  | [], _ => []
  | (q, d) :: rest, p => if q = p then deleteFile rest p else (q, d) :: deleteFile rest p

/-- Model of Path.rename on POSIX: the source entry moves to the target
path, silently replacing any existing target entry. -/
def renameFile (fs : Fs) (a b : AbsPath) : Fs :=
  match readFile fs a with
  | none => fs
  | some c => writeFile (deleteFile fs a) b c

/-- Path(str(dest) + ".bak"): append .bak to the final name segment. -/
def bakPath : AbsPath → AbsPath
  | [] => []
  | [s] => [s ++ ".bak".toList]
  | s :: rest => s :: bakPath rest

def lastSegOf : AbsPath → Seg
  | [] => []
  | [s] => s
  | _ :: rest => lastSegOf rest

/-- Embeds ResourceManager.compute_resource_hash (lines 219-227): resolve,
read, digest; a missing file is the "Resource not found" error. -/
def computeResourceHash (env : Env) (fs : Fs) (namespacedPath : Chars) :
    Except Err Chars :=
  match resolveResourcePath env namespacedPath with
  | .error e => .error e
  | .ok (_, rp) =>
    match readFile fs rp with
    | none => .error .resourceNotFound
    | some c => .ok (computeHash c)

/-- The resource reference stored in the header: namespace qualified unless
it is the default namespace (resource_manager.py lines 149-154). -/
def resourceRefOf (namespacedPath : Chars) : Chars :=
  let pr := parseNamespacedPath namespacedPath
  if pr.1 = DEFAULT_NAMESPACE then pr.2 else pr.1 ++ ':' :: pr.2

/-- Embeds ResourceManager.build_invoker_header (lines 138-163): resolve
the resource, digest its bytes, and instantiate the header template with
the tool version, the reference, the date and the digest. -/
def buildInvokerHeader (env : Env) (fs : Fs) (namespacedPath : Chars) :
    Except Err Chars :=
  match resolveResourcePath env namespacedPath with
  | .error e => .error e
  | .ok (_, rp) =>
    match readFile fs rp with
    | none => .error .resourceNotFound
    | some c =>
      .ok (headerText invokerVersion (resourceRefOf namespacedPath) env.today (computeHash c))

/-- Embeds ResourceManager.import_resource (lines 243-269) with the
identity line transform: resolve, read the resource, optionally prepend a
freshly built header, write the destination. -/
def importResource (env : Env) (fs : Fs) (namespacedPath : Chars)
    (dstPath : AbsPath) (sign : Bool) : Except Err Fs :=
  match resolveResourcePath env namespacedPath with
  | .error e => .error e
  | .ok (_, rp) =>
    match readFile fs rp with
    | none => .error .resourceNotFound
    | some content =>
      if sign then
        match buildInvokerHeader env fs namespacedPath with
        | .error e => .error e
        | .ok h => .ok (writeFile fs dstPath (h ++ content))
      else .ok (writeFile fs dstPath content)

/-- The body of a freshly materialized signed file for resource content rc. -/
def freshSignedContent (env : Env) (namespacedPath : Chars) (rc : Chars) : Chars :=
  headerText invokerVersion (resourceRefOf namespacedPath) env.today (computeHash rc) ++ rc

/-- Embeds Project._import_file (project.py lines 182-198): back up an
existing destination to .bak, refusing when the backup already exists,
then materialize signed. -/
def importFile (env : Env) (fs : Fs) (namespacedPath : Chars) (dstPath : AbsPath) :
    Except Err Fs :=
  match readFile fs dstPath with
  | some _ =>
    if (readFile fs (bakPath dstPath)).isSome then .error .backupCollision
    else importResource env (renameFile fs dstPath (bakPath dstPath)) namespacedPath dstPath true
  | none => importResource env fs namespacedPath dstPath true

/-- Embeds Project._rebuild_resource (project.py lines 254-267): the three
hash reconciliation.  Note the source renames path to path + ".bak"
without testing whether the backup already exists. -/
def rebuildResource (env : Env) (fs : Fs) (resourceName : Chars)
    (path : AbsPath) (sign : Bool) : Except Err Fs :=
  match readFile fs path with
  | none => .error .resourceMissingOnDisk
  | some c =>
    match computeResourceHash env fs resourceName with
    | .error e => .error e
    | .ok resourceHash =>
      match computeFileHash c with
      | .error e => .error e
      | .ok (cached, computed) =>
        if cached ≠ computed then
          importResource env (renameFile fs path (bakPath path)) resourceName path sign
        else if resourceHash ≠ cached then
          importResource env fs resourceName path sign
        else .ok fs

/-- Embeds util.is_editable_install_for_path (util.py lines 21-33): a path
is not editable when any ancestor directory name is site-packages or
dist-packages. -/
def isEditableInstallForPath (p : AbsPath) : Bool :=
  !(p.any (fun s =>
    lowerChars s = "site-packages".toList || lowerChars s = "dist-packages".toList))

/-- Embeds ResourceManager._export_existing_resource (lines 323-340): skip
when the stored and computed hashes agree, otherwise write the stripped
body to the destination. -/
def exportExistingResource (fs : Fs) (srcContent : Chars) (dest : AbsPath) :
    Except Err Fs :=
  match computeFileHash srcContent with
  | .error e => .error e
  | .ok (stored, computed) =>
    if stored = computed then .ok fs
    else .ok (writeFile fs dest (joinChars (stripInvokerHeader srcContent)))

/-- Embeds ResourceManager.export_resource (lines 277-321): explicit
namespace required, namespace must exist and be editable, destination is
the namespace root joined with the raw relative part (the source performs
no canonicalization or containment check on this join; the write lands at
the canonical target the operating system resolves it to). -/
def exportResource (env : Env) (fs : Fs) (srcPath : AbsPath)
    (namespacedDest : Chars) : Except Err Fs :=
  if !(namespacedDest.any (fun c => c == ':')) then .error .namespaceRequired
  else
    let (ns, rel) := parseNamespacedPath namespacedDest
    match lookupSource env.sources ns with
    | none => .error .unknownNamespace
    | some root0 =>
      if !(isEditableInstallForPath root0) then .error .namespaceNotEditable
      else
        let pr := parseRelPath rel
        let dest := normalizeSegs (if pr.1 then pr.2 else root0 ++ pr.2)
        match readFile fs srcPath with
        | none => .error .sourceMissing
        | some srcContent =>
          match parseInvokerHeader srcContent with
          | some _ => exportExistingResource fs srcContent dest
          | none => .ok (writeFile fs dest srcContent)

/-!
Project level rebuild (project.py).
-/

def invokerPySeg : Seg := "invoker.py".toList

/-- Embeds Project._set_project_version (project.py lines 48-61): read the
first line of invoker.py, strip it, and prefix match the version regex
r"# Invoker: v(\d+\.\d+\.\d+)". -/
def parseProjectVersion (content : Chars) : Option Chars :=
  let firstLine := content.takeWhile (fun c => !(c == '\n'))
  match expectLit hdrLine1Start (trimChars firstLine) with
  | none => none
  | some r => (parseVersionChars r).map Prod.fst

/-- Embeds Project.check_version with error_on_mismatch=True (project.py
lines 34-46). -/
def checkVersionStrict (fs : Fs) (root : AbsPath) : Except Err Unit :=
  match readFile fs (root ++ [invokerPySeg]) with
  | none => .error .versionUndetermined
  | some c =>
    match parseProjectVersion c with
    | none => .error .versionUndetermined
    | some v => if v = invokerVersion then .ok () else .error .versionMismatch

def pyExt : Chars := ".py".toList

def pyBakExt : Chars := ".py.bak".toList

/-- The paths root.rglob("*.py") enumerates: entries strictly below the
project root whose file name ends in .py, in filesystem order (the
traversal is snapshotted before the loop mutates the tree). -/
def pyFilesOf (fs : Fs) (root : AbsPath) : List AbsPath :=
  (fs.map Prod.fst).filter
    (fun p => isUnderB root p && decide (root.length < p.length)
      && endsWithB pyExt (lastSegOf p))

/-- One iteration of the Project.rebuild loop (project.py lines 244-252):
parse the header, skip headerless files, skip (with a warning) a header
whose resource field is empty, otherwise reconcile; an error aborts the
whole run (raise_error raises SystemExit with no handler in the loop). -/
def rebuildStep (env : Env) (acc : Except Err Fs) (p : AbsPath) : Except Err Fs :=
  match acc with
  | .error e => .error e
  | .ok fs =>
    match readFile fs p with
    | none => .error .fileVanished
    | some c =>
      match parseInvokerHeader c with
      | none => .ok fs
      | some fields =>
        if fields.resource = [] then .ok fs
        else rebuildResource env fs fields.resource p true

/-- Embeds Project.rebuild (project.py lines 242-252): strict version
check, then the per file loop over every *.py file under the root. -/
def rebuildProject (env : Env) (fs : Fs) (root : AbsPath) : Except Err Fs :=
  match checkVersionStrict fs root with
  | .error e => .error e
  | .ok _ => (pyFilesOf fs root).foldl (rebuildStep env) (.ok fs)

/-!
BundleManager: inheritance analysis and module manifest handling.
Modelled from the spec where external: CPython ast.parse is not part of
this repository, so a Python file is carried together with its parse
result, with a syntactically invalid file carrying none; the retained
AST facts are exactly the ones InheritanceAnalyzer._parse extracts
(from-imports with aliases, class definitions with base simple names).
-/

structure PyAlias where
  name : Chars
  asname : Option Chars
deriving DecidableEq, Repr

structure PyImportFrom where
  module : Chars
  names : List PyAlias
deriving DecidableEq, Repr

structure PyClassDef where
  name : Chars
  bases : List Chars
deriving DecidableEq, Repr

structure PyAst where
  importFroms : List PyImportFrom
  classes : List PyClassDef
deriving DecidableEq, Repr

/-- Dict assignment semantics for _class_bases: the last definition of a
class name wins. -/
def lookupLastBases (a : PyAst) (n : Chars) : Option (List Chars) :=
  (a.classes.reverse.find? (fun c => c.name = n)).map PyClassDef.bases

def dedupKeepFirst : List Chars → List Chars
  | [] => []
  | x :: rest => if x ∈ rest then x :: (dedupKeepFirst rest).filter (fun y => decide (y ≠ x))
    else x :: dedupKeepFirst rest

/-- Embeds InheritanceAnalyzer._inherits_from_recursive (util.py lines
150-170): depth first walk over declared base names with a visited set;
the fuel argument bounds the recursion depth, and a budget of one more
than the class count is enough because every level of the walk adds a
fresh class name to the visited set. -/
def inheritsFromRec (a : PyAst) : Nat → Chars → List Chars → List Chars → Bool
  | 0, _, _, _ => false
  | fuel + 1, className, targets, visited =>
    if className ∈ visited then false
    else if className ∈ targets then true
    else
      match lookupLastBases a className with
      | none => false
      | some bases =>
        bases.any (fun b => b ∈ targets || inheritsFromRec a fuel b targets (className :: visited))

/-- Embeds InheritanceAnalyzer.inherits_from (util.py lines 135-148). -/
def inheritsFrom (a : PyAst) (className : Chars) (targets : List Chars) : Bool :=
  inheritsFromRec a (a.classes.length + 2) className targets []

/-- The local alias names bound to class_name imported from module, the
target name resolution walk of has_subclass_of (util.py lines 185-199). -/
def targetNamesOf (a : PyAst) (module className : Chars) : List Chars :=
  if a.importFroms.any (fun i => !i.module.isEmpty && i.module = module) then
    (a.importFroms.filter (fun i => i.module = module)).flatMap
      (fun i => (i.names.filter (fun al => al.name = className)).map
        (fun al => al.asname.getD al.name))
  else []

/-- Embeds InheritanceAnalyzer.has_subclass_of (util.py lines 172-209): a
source that failed to parse has no imports and no classes, so the answer
is false without an error. -/
def hasSubclassOf (t : Option PyAst) (module className : Chars) : Bool :=
  match t with
  | none => false
  | some a =>
    let targets := targetNamesOf a module className
    if targets.isEmpty then false
    else (dedupKeepFirst (a.classes.map PyClassDef.name)).any
      (fun n => inheritsFrom a n targets)

/-- Embeds ResourceManager._file_has_invoker_module_subclass (lines
458-472) over the parse result of the file content. -/
def fileHasInvokerModuleSubclass (t : Option PyAst) : Bool :=
  hasSubclassOf t "invoker".toList "InvokerModule".toList

/-- A directory entry of a module: its file name, its text content, and,
for a Python file, the external parser result of that content. -/
structure DirEntry where
  name : Seg
  content : Chars
  pyAst : Option PyAst
deriving DecidableEq, Repr

abbrev ModuleDir := List DirEntry

def initSeg : Seg := "__init__.py".toList

def lookupEntry : ModuleDir → Seg → Option DirEntry
  | [], _ => none
  | e :: rest, n => if e.name = n then some e else lookupEntry rest n

/-- String comparison of Python sorted(): lexicographic by code point. -/
def lexLeB : Chars → Chars → Bool
  | [], _ => true
  | _ :: _, [] => false
  | a :: as, b :: bs => if a = b then lexLeB as bs else decide (a < b)

def insertSorted (x : Chars) : List Chars → List Chars
  | [] => [x]
  | y :: ys => if lexLeB x y then x :: y :: ys else y :: insertSorted x ys

def sortChars (l : List Chars) : List Chars := l.foldr insertSorted []

/-- The recognized non code configuration patterns of
_discover_module_files (resource_manager.py line 500). -/
def configExts : List Chars :=
  [".yaml".toList, ".yml".toList, ".json".toList, ".toml".toList]

/-- Embeds ResourceManager._discover_module_files (lines 474-504): every
direct .py file other than the entry point whose content declares a
transitive InvokerModule subclass, plus every file matching a recognized
configuration pattern, the whole list sorted. -/
def discoverModuleFiles (d : ModuleDir) : List Seg :=
  let code := (d.filter (fun e =>
    endsWithB pyExt e.name && decide (e.name ≠ initSeg)
      && fileHasInvokerModuleSubclass e.pyAst)).map DirEntry.name
  let configs := configExts.foldl
    (fun acc ext => acc ++ (d.filter (fun e => endsWithB ext e.name)).map DirEntry.name) []
  sortChars (code ++ configs)

/-- Literal and layout of the manifest regex
r"__invoker_files__\s*=\s*\[(.*?)\]" tried at one position: the declared
name, optional whitespace, =, optional whitespace, [, then the shortest
run up to a closing bracket. -/
def invokerFilesLit : Chars := "__invoker_files__".toList

def takeUntilBracket : Chars → Option (Chars × Chars)
  | [] => none
  | c :: rest =>
    if c = ']' then some ([], rest)
    else (takeUntilBracket rest).map (fun pr => (c :: pr.1, pr.2))

def tryManifestAt (s : Chars) : Option (Chars × Chars) := do
  let r1 ← expectLit invokerFilesLit s
  let r2 := r1.dropWhile isSpaceChar
  let r3 ← expectLit ['='] r2
  let r4 := r3.dropWhile isSpaceChar
  let r5 ← expectLit ['['] r4
  takeUntilBracket r5

/-- re.search semantics for the manifest regex: first position at which
the whole pattern matches; yields the inner group and the remainder. -/
def findManifestFrom : Chars → Option (Chars × Chars)
  | [] => none
  | c :: rest =>
    match tryManifestAt (c :: rest) with
    | some pr => some pr
    | none => findManifestFrom rest

def isQuoteChar (c : Char) : Bool := c == '"' || c == '\x27'

/-- re.findall semantics for the quoted item pattern inside the manifest
group: a quote, one or more non quote characters, a quote; non
overlapping, left to right. -/
def extractQuotedGo : Nat → Chars → List Chars
  | 0, _ => []
  | _, [] => []
  | fuel + 1, c :: rest =>
    if isQuoteChar c then
      let run := rest.takeWhile (fun d => !isQuoteChar d)
      let rem := rest.dropWhile (fun d => !isQuoteChar d)
      match rem with
      | _ :: rest2 =>
        if run.isEmpty then extractQuotedGo fuel rem
        else run :: extractQuotedGo fuel rest2
      | [] => []
    else extractQuotedGo fuel rest

def extractQuoted (s : Chars) : List Chars := extractQuotedGo s.length s

/-- Embeds ResourceManager.get_module_files (lines 402-456): read the
declared manifest from the entry point file, fall back to auto discovery
when requested, otherwise fail; the entry point file is always prepended
when absent from the list. -/
def getModuleFiles (d : ModuleDir) (autoDiscover : Bool) : Except Err (List Seg) :=
  match lookupEntry d initSeg with
  | none => .error .moduleInitMissing
  | some initEntry =>
    match findManifestFrom initEntry.content with
    | some (inner, _) =>
      let files := extractQuoted inner
      .ok (if initSeg ∈ files then files else initSeg :: files)
    | none =>
      if autoDiscover then
        let files := discoverModuleFiles d
        .ok (if initSeg ∈ files then files else initSeg :: files)
      else .error .manifestMissing

/-- The textual block _update_init_invoker_files writes (lines 519-524). -/
def manifestBlockText (files : List Seg) : Chars :=
  invokerFilesLit ++ " = [\n    ".toList
    ++ joinChars ((files.map (fun f => '"' :: f ++ ['"'])).intersperse ",\n    ".toList)
    ++ ",\n]\n".toList

/-- Replace every manifest regex match by the replacement, the re.sub of
_update_init_invoker_files. -/
def replaceManifestGo (repl : Chars) : Nat → Chars → Chars
  | 0, s => s
  | _, [] => []
  | fuel + 1, c :: rest =>
    match tryManifestAt (c :: rest) with
    | some (_, after) => repl ++ replaceManifestGo repl fuel after
    | none => c :: replaceManifestGo repl fuel rest

/-- Embeds ResourceManager._update_init_invoker_files (lines 506-541) on
the entry point content: filter the entry point out of the written list,
then replace an existing declaration or append a new block. -/
def updateInitInvokerFiles (initContent : Chars) (files : List Seg) : Chars :=
  let filesToWrite := files.filter (fun f => decide (f ≠ initSeg))
  let block := manifestBlockText filesToWrite
  if containsSub invokerFilesLit initContent then
    replaceManifestGo (trimChars block) initContent.length initContent
  else
    (if endsWithB ['\n'] initContent then initContent else initContent ++ ['\n'])
      ++ '\n' :: block

def nonNl (c : Char) : Bool := !(c == '\n')

/-- Shape of a well formed date field, matched by \d4-\d2-\d2. -/
def dateShape (d : Chars) : Prop :=
  ∃ y mo dd, d = y ++ '-' :: mo ++ '-' :: dd ∧
    y.length = 4 ∧ mo.length = 2 ∧ dd.length = 2 ∧
    y.all Char.isDigit = true ∧ mo.all Char.isDigit = true ∧ dd.all Char.isDigit = true

/-- Whether the first line of a text is not wholly blank (vacuously true
for the empty text): the condition under which the blank skipping of
strip is the identity. -/
def leadOkB (s : Chars) : Bool :=
  match splitLines s with
  | [] => true
  | l :: _ => !isBlankLine l

/-- A namespaced path whose stored resource reference is usable as a
header field. -/
def refShape (np : Chars) : Prop :=
  resourceRefOf np ≠ [] ∧ (resourceRefOf np).all nonNl = true

/-!
Concrete fixtures used by witnesses and counterexamples.
-/

def resRoot : AbsPath := ["tmp".toList, "res".toList]

def projRoot : AbsPath := ["proj".toList]

def envW : Env := ⟨[("invoker".toList, resRoot)], "2026-10-12".toList⟩

def scriptNp : Chars := "script.py".toList

def scriptResPath : AbsPath := resRoot ++ [scriptNp]

def rcPlain : Chars := "x = 1\n".toList

def rcEdited : Chars := "x = 2\n".toList

def rcBlankLeading : Chars := "\nx = 1\n".toList

def c1Path : AbsPath := projRoot ++ [scriptNp]

def c1Drifted : Chars :=
  headerText invokerVersion scriptNp envW.today (computeHash rcPlain) ++ rcEdited

def c1Fs : Fs := [(scriptResPath, rcPlain), (c1Path, c1Drifted)]

def c2Bak : Chars := "previous backup\n".toList

def c2Fs : Fs :=
  [(scriptResPath, rcPlain), (c1Path, c1Drifted), (bakPath c1Path, c2Bak)]

def c2FsAfter : Fs :=
  writeFile (renameFile c2Fs c1Path (bakPath c1Path)) c1Path
    (freshSignedContent envW scriptNp rcPlain)

def escapeSrc : AbsPath := projRoot ++ ["a.py".toList]

def c5Fs : Fs := [(escapeSrc, "hello\n".toList)]

def escapedDest : AbsPath := ["tmp".toList, "escape.py".toList]

def c7Fs : Fs := [(scriptResPath, rcPlain)]

def c7Dst : AbsPath := projRoot ++ [scriptNp]

def c7BlankFs : Fs := [(scriptResPath, rcBlankLeading)]

def c7BlankFs1 : Fs :=
  writeFile c7BlankFs c7Dst (freshSignedContent envW scriptNp rcBlankLeading)

def invResPath : AbsPath := resRoot ++ [invokerPySeg]

def projInvPath : AbsPath := projRoot ++ [invokerPySeg]

def invNp : Chars := "invoker.py".toList

def freshInv : Chars := freshSignedContent envW invNp rcPlain

def c9Fs : Fs := [(invResPath, rcPlain), (projInvPath, freshInv)]

def notesPath : AbsPath := projRoot ++ ["notes.txt".toList]

def notesDrifted : Chars :=
  headerText invokerVersion invNp envW.today (computeHash rcPlain) ++ rcEdited

def c9xFs : Fs := [(invResPath, rcPlain), (projInvPath, freshInv), (notesPath, notesDrifted)]

/-!
C8 and C10: module manifest auto discovery.
-/

/-- The parse result of loader.py in the spec scenario: Loader derives
from InvokerModule through the single intermediate BaseLoader, with
InvokerModule imported from module invoker. -/
def loaderAst : PyAst :=
  ⟨[⟨"invoker".toList, [⟨"InvokerModule".toList, none⟩]⟩],
   [⟨"BaseLoader".toList, ["InvokerModule".toList]⟩,
    ⟨"Loader".toList, ["BaseLoader".toList]⟩]⟩

/-- The scenario module directory: an entry point file with the given
content, loader.py with the derivation chain, and README.md. -/
def scenarioDir (initContent lc rd : Chars) : ModuleDir :=
  [⟨initSeg, initContent, none⟩,
   ⟨"loader.py".toList, lc, some loaderAst⟩,
   ⟨"README.md".toList, rd, none⟩]

def c8Init : Chars := "loads data\n".toList

def c8Loader : Chars := "from invoker import InvokerModule\n".toList

def c8Readme : Chars := "readme text\n".toList

/-!
Theorems: helper lemmas first, then the claim theorems with their
witnesses and counterexamples.
-/

theorem computeHash_length (s : Chars) : (computeHash s).length = 32 := by
  simp [computeHash, natToHex32]

theorem hexDigitChar_hex : ∀ k, k < 16 → isHexLowerChar (hexDigitChar k) = true := by
  decide

theorem computeHash_all_hex (s : Chars) :
    (computeHash s).all isHexLowerChar = true := by
  rw [List.all_eq_true]
  intro c hc
  simp only [computeHash, natToHex32, List.mem_map] at hc
  obtain ⟨i, _, rfl⟩ := hc
  exact hexDigitChar_hex _ (Nat.mod_lt _ (by norm_num))

/-!
Lemmas about the parsing combinators and the header round trip.
-/

theorem expectLit_append (l s : Chars) : expectLit l (l ++ s) = some s := by
  induction l with
  | nil => rfl
  | cons c cs ih => simp [expectLit, ih]

theorem expectLit_cons_append (c : Char) (l s : Chars) :
    expectLit (c :: l) (c :: (l ++ s)) = some s := by
  simpa [expectLit] using expectLit_append l s

theorem expectLit_single (c : Char) (s : Chars) :
    expectLit [c] (c :: s) = some s := by
  simp [expectLit]

theorem parseNWhile_exact (p : Char → Bool) (s t : Chars)
    (hlen : s.length = n) (hall : s.all p = true) :
    parseNWhile p n (s ++ t) = some (s, t) := by
  induction s generalizing n with
  | nil => subst hlen; rfl
  | cons c cs ih =>
    subst hlen
    simp only [List.all_cons, Bool.and_eq_true] at hall
    simp [parseNWhile, hall.1, ih rfl hall.2]

theorem parseVersion_invoker (t : Chars) :
    parseVersionChars (invokerVersion ++ '\n' :: t) = some (invokerVersion, '\n' :: t) := by
  rfl

theorem takeWhile_middle (p : Char → Bool) (l : Chars) (c : Char) (r : Chars)
    (hl : l.all p = true) (hc : p c = false) :
    (l ++ c :: r).takeWhile p = l ∧ (l ++ c :: r).dropWhile p = c :: r := by
  induction l with
  | nil => simp [List.takeWhile, List.dropWhile, hc]
  | cons a as ih =>
    simp only [List.all_cons, Bool.and_eq_true] at hl
    obtain ⟨h1, h2⟩ := hl
    obtain ⟨iht, ihd⟩ := ih h2
    simp [List.takeWhile, List.dropWhile, h1, iht, ihd]

theorem isEmpty_false_of_ne_nil {l : Chars} (h : l ≠ []) : l.isEmpty = false := by
  cases l with
  | nil => exact absurd rfl h
  | cons a as => rfl

/-- Round trip of build and parse: the header built for well formed fields
parses back to exactly those fields, whatever body follows. -/
theorem parseInvokerHeader_headerText (res d h body : Chars)
    (hres : res ≠ []) (hresn : res.all nonNl = true)
    (hd : dateShape d) (hlen : h.length = 32) (hhex : h.all isHexLowerChar = true) :
    parseInvokerHeader (headerText invokerVersion res d h ++ body) =
      some ⟨invokerVersion, res, d, h⟩ := by
  obtain ⟨y, mo, dd, rfl, hy, hmo, hdd, hyd, hmod, hddd⟩ := hd
  have hresE : res.isEmpty = false := isEmpty_false_of_ne_nil hres
  have htw := takeWhile_middle (fun c => !(c == '\n')) res '\n'
    (hdrLine4Start ++ (y ++ '-' :: (mo ++ '-' :: (dd ++ '\n' ::
      (hdrLine5Start ++ (h ++ '\n' :: body)))))) hresn (by decide)
  simp only [headerText, List.append_assoc, List.cons_append, List.nil_append]
  simp only [parseInvokerHeader, expectLit_append, Option.bind_eq_bind,
    Option.some_bind, parseVersion_invoker, expectLit_cons_append]
  rw [htw.1, htw.2]
  simp only [hresE, Bool.false_eq_true, if_false, expectLit_cons_append,
    Option.some_bind, parseNWhile_exact Char.isDigit y _ hy hyd, expectLit_single,
    parseNWhile_exact Char.isDigit mo _ hmo hmod,
    parseNWhile_exact Char.isDigit dd _ hdd hddd,
    parseNWhile_exact isHexLowerChar h _ hlen hhex]
  simp [List.append_assoc]

theorem splitLines_append_newline (l rest : Chars) (hl : l.all nonNl = true) :
    splitLines (l ++ '\n' :: rest) = (l ++ ['\n']) :: splitLines rest := by
  induction l with
  | nil => simp [splitLines]
  | cons c cs ih =>
    simp only [List.all_cons, Bool.and_eq_true] at hl
    have hc : ¬(c = '\n') := by
      intro hcc
      subst hcc
      simp [nonNl] at hl
    simp [splitLines, hc, ih hl.2]

theorem join_splitLines (s : Chars) : joinChars (splitLines s) = s := by
  induction s with
  | nil => rfl
  | cons c rest ih =>
    by_cases hc : c = '\n'
    · subst hc
      simp [splitLines, joinChars] at ih ⊢
      exact ih
    · simp only [splitLines, hc, if_false]
      cases hrest : splitLines rest with
      | nil =>
        rw [hrest] at ih
        simp [joinChars] at ih ⊢
        simp [← ih]
      | cons l ls =>
        rw [hrest] at ih
        simp [joinChars] at ih ⊢
        simp [ih]

theorem digit_nonNl {c : Char} (h : c.isDigit = true) : nonNl c = true := by
  by_cases hc : c = '\n'
  · subst hc; simp at h
  · simp [nonNl, hc]

theorem hex_nonNl {c : Char} (h : isHexLowerChar c = true) : nonNl c = true := by
  by_cases hc : c = '\n'
  · subst hc; simp [isHexLowerChar] at h
  · simp [nonNl, hc]

theorem all_nonNl_of_digits {s : Chars} (h : s.all Char.isDigit = true) :
    s.all nonNl = true := by
  rw [List.all_eq_true] at h ⊢
  exact fun c hc => digit_nonNl (h c hc)

theorem dateShape_nonNl {d : Chars} (hd : dateShape d) : d.all nonNl = true := by
  obtain ⟨y, mo, dd, rfl, _, _, _, hyd, hmod, hddd⟩ := hd
  simp [List.all_append, List.all_cons, all_nonNl_of_digits hyd,
    all_nonNl_of_digits hmod, all_nonNl_of_digits hddd, nonNl]

theorem computeHash_nonNl (s : Chars) : (computeHash s).all nonNl = true := by
  have h := computeHash_all_hex s
  rw [List.all_eq_true] at h ⊢
  exact fun c hc => hex_nonNl (h c hc)

/-- The five template lines of a freshly built header, followed by the
lines of the body. -/
theorem splitLines_headerText (res d h body : Chars)
    (hresn : res.all nonNl = true) (hdn : d.all nonNl = true)
    (hhn : h.all nonNl = true) :
    splitLines (headerText invokerVersion res d h ++ body) =
      (hdrLine1Start ++ invokerVersion ++ ['\n']) :: (hdrLine2 ++ ['\n']) ::
      (hdrLine3Start ++ res ++ ['\n']) :: (hdrLine4Start ++ d ++ ['\n']) ::
      (hdrLine5Start ++ h ++ ['\n']) :: splitLines body := by
  have h1 : (hdrLine1Start ++ invokerVersion).all nonNl = true := by
    simp [List.all_append]
    constructor
    · decide
    · decide
  have h2 : hdrLine2.all nonNl = true := by decide
  have h3 : (hdrLine3Start ++ res).all nonNl = true := by
    simp [List.all_append, hresn]
    decide
  have h4 : (hdrLine4Start ++ d).all nonNl = true := by
    simp [List.all_append, hdn]
    decide
  have h5 : (hdrLine5Start ++ h).all nonNl = true := by
    simp [List.all_append, hhn]
    decide
  simp only [headerText, List.append_assoc, List.cons_append, List.nil_append]
  rw [show (hdrLine1Start ++ (invokerVersion ++ '\n' :: (hdrLine2 ++ '\n' ::
      (hdrLine3Start ++ (res ++ '\n' :: (hdrLine4Start ++ (d ++ '\n' ::
      (hdrLine5Start ++ (h ++ '\n' :: body)))))))) : Chars) =
    (hdrLine1Start ++ invokerVersion) ++ '\n' :: ((hdrLine2) ++ '\n' ::
      ((hdrLine3Start ++ res) ++ '\n' :: ((hdrLine4Start ++ d) ++ '\n' ::
      ((hdrLine5Start ++ h) ++ '\n' :: body)))) from by
    simp [List.append_assoc]]
  rw [splitLines_append_newline _ _ h1, splitLines_append_newline _ _ h2,
    splitLines_append_newline _ _ h3, splitLines_append_newline _ _ h4,
    splitLines_append_newline _ _ h5]
  simp [List.append_assoc]

theorem parse_freshSignedContent (env : Env) (np rc : Chars)
    (href : refShape np) (hd : dateShape env.today) :
    parseInvokerHeader (freshSignedContent env np rc) =
      some ⟨invokerVersion, resourceRefOf np, env.today, computeHash rc⟩ :=
  parseInvokerHeader_headerText (resourceRefOf np) env.today (computeHash rc) rc
    href.1 href.2 hd (computeHash_length rc) (computeHash_all_hex rc)

theorem strip_freshSignedContent (env : Env) (np rc : Chars)
    (href : refShape np) (hd : dateShape env.today) :
    stripInvokerHeader (freshSignedContent env np rc) =
      (splitLines rc).dropWhile isBlankLine := by
  rw [stripInvokerHeader]
  rw [parse_freshSignedContent env np rc href hd]
  rw [show freshSignedContent env np rc =
    headerText invokerVersion (resourceRefOf np) env.today (computeHash rc) ++ rc from rfl]
  rw [splitLines_headerText _ _ _ _ href.2 (dateShape_nonNl hd) (computeHash_nonNl rc)]
  rfl

/-- Stored and computed hashes of a freshly signed file agree whenever the
resource content does not begin with a wholly blank line. -/
theorem computeFileHash_fresh (env : Env) (np rc : Chars)
    (href : refShape np) (hd : dateShape env.today) (hlead : leadOkB rc = true) :
    computeFileHash (freshSignedContent env np rc) =
      .ok (computeHash rc, computeHash rc) := by
  rw [computeFileHash, parse_freshSignedContent env np rc href hd]
  rw [strip_freshSignedContent env np rc href hd]
  have hdrop : (splitLines rc).dropWhile isBlankLine = splitLines rc := by
    unfold leadOkB at hlead
    cases hsl : splitLines rc with
    | nil => rfl
    | cons l ls =>
      rw [hsl] at hlead
      simp at hlead
      simp [List.dropWhile, hlead]
  rw [hdrop, join_splitLines]

/-!
Filesystem lemmas.
-/

theorem readFile_writeFile_self (fs : Fs) (p : AbsPath) (c : Chars) :
    readFile (writeFile fs p c) p = some c := by
  induction fs with
  | nil => simp [writeFile, readFile]
  | cons e rest ih =>
    obtain ⟨q, d⟩ := e
    by_cases hq : q = p
    · subst hq; simp [writeFile, readFile]
    · simp [writeFile, readFile, hq, ih]

theorem readFile_writeFile_ne (fs : Fs) (p q : AbsPath) (c : Chars) (h : q ≠ p) :
    readFile (writeFile fs p c) q = readFile fs q := by
  have hpq : ¬(p = q) := fun e => h e.symm
  induction fs with
  | nil => simp [writeFile, readFile, hpq]
  | cons e rest ih =>
    obtain ⟨r, d⟩ := e
    by_cases hr : r = p
    · subst hr
      simp [writeFile, readFile, hpq]
    · simp only [writeFile, hr, if_false, readFile]
      by_cases hrq : r = q
      · simp [hrq]
      · simp [hrq, ih]

theorem readFile_deleteFile_ne (fs : Fs) (p q : AbsPath) (h : q ≠ p) :
    readFile (deleteFile fs p) q = readFile fs q := by
  have hpq : ¬(p = q) := fun e => h e.symm
  induction fs with
  | nil => rfl
  | cons e rest ih =>
    obtain ⟨r, d⟩ := e
    by_cases hr : r = p
    · subst hr
      simp [deleteFile, readFile, hpq, ih]
    · by_cases hrq : r = q
      · subst hrq
        simp [deleteFile, readFile, hr]
      · simp [deleteFile, readFile, hr, hrq, ih]

theorem readFile_renameFile_ne (fs : Fs) (a b q : AbsPath)
    (hqa : q ≠ a) (hqb : q ≠ b) :
    readFile (renameFile fs a b) q = readFile fs q := by
  rw [renameFile]
  cases hr : readFile fs a with
  | none => rfl
  | some c => rw [readFile_writeFile_ne _ _ _ _ hqb, readFile_deleteFile_ne _ _ _ hqa]

theorem bakPath_ne_nil (p : AbsPath) (h : p ≠ []) : bakPath p ≠ [] := by
  cases p with
  | nil => exact absurd rfl h
  | cons s rest => cases rest <;> simp [bakPath]

theorem bakPath_ne_self (p : AbsPath) (h : p ≠ []) : bakPath p ≠ p := by
  induction p with
  | nil => exact absurd rfl h
  | cons s rest ih =>
    cases rest with
    | nil =>
      intro hcontr
      simp only [bakPath, List.cons.injEq, and_true] at hcontr
      have := congrArg List.length hcontr
      simp at this
    | cons t ts =>
      intro hcontr
      simp only [bakPath, List.cons.injEq, true_and] at hcontr
      exact ih (by simp) hcontr

theorem lastSegOf_cons_of_ne_nil (s : Seg) (l : AbsPath) (h : l ≠ []) :
    lastSegOf (s :: l) = lastSegOf l := by
  cases l with
  | nil => exact absurd rfl h
  | cons t ts => rfl

theorem lastSegOf_bakPath (p : AbsPath) (h : p ≠ []) :
    lastSegOf (bakPath p) = lastSegOf p ++ ".bak".toList := by
  induction p with
  | nil => exact absurd rfl h
  | cons s rest ih =>
    cases rest with
    | nil => simp [bakPath, lastSegOf]
    | cons t ts =>
      rw [show bakPath (s :: t :: ts) = s :: bakPath (t :: ts) from rfl]
      rw [lastSegOf_cons_of_ne_nil s _ (bakPath_ne_nil _ (by simp))]
      rw [ih (by simp)]
      rfl

/-- Successful path of importResource with signing: the destination is
rewritten with the fresh signed content, nothing else moves. -/
theorem importResource_ok (env : Env) (fs : Fs) (np : Chars) (dst : AbsPath)
    (ns : Chars) (rp : AbsPath) (rc : Chars)
    (hres : resolveResourcePath env np = .ok (ns, rp))
    (hread : readFile fs rp = some rc) :
    importResource env fs np dst true = .ok (writeFile fs dst (freshSignedContent env np rc)) := by
  simp [importResource, buildInvokerHeader, hres, hread, freshSignedContent]

/-- Branch analysis of the three hash reconciliation, phrased on the
computed hashes. -/
theorem rebuildResource_branches (env : Env) (fs : Fs) (rn : Chars) (path : AbsPath)
    (c : Chars) (stored computed : Chars) (ns : Chars) (rp : AbsPath) (rc : Chars)
    (hc : readFile fs path = some c)
    (hres : resolveResourcePath env rn = .ok (ns, rp))
    (hrc : readFile fs rp = some rc)
    (hh : computeFileHash c = .ok (stored, computed))
    (hrp1 : rp ≠ path) (hrp2 : rp ≠ bakPath path) :
    (stored ≠ computed →
      rebuildResource env fs rn path true =
        .ok (writeFile (renameFile fs path (bakPath path)) path
          (freshSignedContent env rn rc))) ∧
    (stored = computed → computeHash rc ≠ stored →
      rebuildResource env fs rn path true =
        .ok (writeFile fs path (freshSignedContent env rn rc))) ∧
    (stored = computed → computeHash rc = stored →
      rebuildResource env fs rn path true = .ok fs) := by
  have hrh : computeResourceHash env fs rn = .ok (computeHash rc) := by
    simp [computeResourceHash, hres, hrc]
  refine ⟨?_, ?_, ?_⟩
  · intro hne
    have hrc2 : readFile (renameFile fs path (bakPath path)) rp = some rc := by
      rw [readFile_renameFile_ne _ _ _ _ hrp1 hrp2, hrc]
    simp only [rebuildResource, hc, hrh, hh]
    simp only [ne_eq, hne, not_false_eq_true, if_true]
    exact importResource_ok env _ rn path ns rp rc hres hrc2
  · intro heq hne
    have hne2 : ¬(computeHash rc = computed) := fun e => hne (e.trans heq.symm)
    simp only [rebuildResource, hc, hrh, hh]
    simp only [ne_eq, heq, not_true_eq_false, if_false, hne2, if_true]
    exact importResource_ok env fs rn path ns rp rc hres hrc
  · intro heq hres2
    simp only [rebuildResource, hc, hrh, hh]
    simp [heq, hres2]

theorem dateShape_envW : dateShape envW.today :=
  ⟨"2026".toList, "10".toList, "12".toList, by decide, by decide, by decide,
    by decide, by decide, by decide, by decide⟩

theorem refShape_scriptNp : refShape scriptNp := ⟨by decide, by decide⟩

/-!
Claim theorems.
-/

/-- C1.  For every tracked pair (resourceId, path) where path exists and
carries a provenance header, reconciliation follows the three hash
decision table: storedHash different from computedHash renames path to
path + ".bak" and rematerializes the resource with a fresh signed header;
otherwise resourceHash different from storedHash rematerializes with
signing and creates no backup; otherwise reconciliation is a no-op
leaving the filesystem unchanged. -/
theorem c1_three_hash_decision_table (env : Env) (fs : Fs) (rn : Chars)
    (path : AbsPath) (c stored computed : Chars) (ns : Chars) (rp : AbsPath) (rc : Chars)
    (hc : readFile fs path = some c)
    (hres : resolveResourcePath env rn = .ok (ns, rp))
    (hrc : readFile fs rp = some rc)
    (hh : computeFileHash c = .ok (stored, computed))
    (hrp1 : rp ≠ path) (hrp2 : rp ≠ bakPath path) (hpath : path ≠ []) :
    (stored ≠ computed →
      rebuildResource env fs rn path true =
        .ok (writeFile (renameFile fs path (bakPath path)) path
          (freshSignedContent env rn rc))) ∧
    (stored = computed → computeHash rc ≠ stored →
      rebuildResource env fs rn path true =
        .ok (writeFile fs path (freshSignedContent env rn rc)) ∧
      readFile (writeFile fs path (freshSignedContent env rn rc)) (bakPath path) =
        readFile fs (bakPath path)) ∧
    (stored = computed → computeHash rc = stored →
      rebuildResource env fs rn path true = .ok fs) := by
  obtain ⟨b1, b2, b3⟩ :=
    rebuildResource_branches env fs rn path c stored computed ns rp rc hc hres hrc hh hrp1 hrp2
  refine ⟨b1, ?_, b3⟩
  intro heq hne
  refine ⟨b2 heq hne, ?_⟩
  exact readFile_writeFile_ne fs path (bakPath path) _ (bakPath_ne_self path hpath)

theorem c1_three_hash_decision_table_witness :
    rebuildResource envW c1Fs scriptNp c1Path true =
      .ok (writeFile (renameFile c1Fs c1Path (bakPath c1Path)) c1Path
        (freshSignedContent envW scriptNp rcPlain)) :=
  (c1_three_hash_decision_table envW c1Fs scriptNp c1Path c1Drifted
    (computeHash rcPlain) (computeHash rcEdited) DEFAULT_NAMESPACE scriptResPath rcPlain
    (by decide) (by decide) (by decide) (by decide) (by decide) (by decide)
    (by decide)).1 (by decide)

/-- C2.  The claim demands that both single file import and reconciliation
needing a backup fail when path + ".bak" already exists, leaving the path
and the backup unmodified.  The import path honors this (first conjunct),
but Project._rebuild_resource renames the drifted file onto the existing
backup without any collision check, silently destroying it: reconciliation
succeeds and the prior backup content is replaced. -/
theorem c2_backup_collision_failing_input :
    importFile envW c2Fs scriptNp c1Path = .error .backupCollision ∧
    readFile c2Fs (bakPath c1Path) = some c2Bak ∧
    rebuildResource envW c2Fs scriptNp c1Path true = .ok c2FsAfter ∧
    readFile c2FsAfter (bakPath c1Path) = some c1Drifted ∧
    c1Drifted ≠ c2Bak := by
  refine ⟨by decide, by decide, ?_, by decide, by decide⟩
  exact (rebuildResource_branches envW c2Fs scriptNp c1Path c1Drifted
    (computeHash rcPlain) (computeHash rcEdited) DEFAULT_NAMESPACE scriptResPath rcPlain
    (by decide) (by decide) (by decide) (by decide) (by decide) (by decide)).1 (by decide)

/-- C3 (amended).  For every generated file produced by materialization
with signing from a resource whose content does not begin with a wholly
blank line, the stored contentHash equals the hash of the body excluding
the header and the blank lines following it. -/
theorem c3_fresh_hashes_agree (env : Env) (np rc : Chars)
    (href : refShape np) (hd : dateShape env.today) (hlead : leadOkB rc = true) :
    computeFileHash (freshSignedContent env np rc) =
      .ok (computeHash rc, computeHash rc) :=
  computeFileHash_fresh env np rc href hd hlead

theorem c3_fresh_hashes_agree_witness :
    computeFileHash (freshSignedContent envW scriptNp rcPlain) =
      .ok (computeHash rcPlain, computeHash rcPlain) :=
  c3_fresh_hashes_agree envW scriptNp rcPlain refShape_scriptNp dateShape_envW (by decide)

/-- C3 (counterexample).  A resource beginning with a blank line yields a
freshly signed file whose stored hash covers the blank line while the
computed hash does not: the invariant fails on an unedited file. -/
theorem c3_blank_leading_counterexample :
    computeFileHash (freshSignedContent envW scriptNp rcBlankLeading) =
      .ok (computeHash rcBlankLeading, computeHash rcPlain) ∧
    computeHash rcBlankLeading ≠ computeHash rcPlain := by
  constructor
  · decide
  · decide

theorem dropWhile_blank_of_leadOk {rc : Chars} (hlead : leadOkB rc = true) :
    (splitLines rc).dropWhile isBlankLine = splitLines rc := by
  unfold leadOkB at hlead
  cases hsl : splitLines rc with
  | nil => rfl
  | cons l ls =>
    rw [hsl] at hlead
    simp at hlead
    simp [List.dropWhile, hlead]

/-- C4 (amended).  Parsing a freshly built signed file recovers exactly
the version, resource reference, date and hash that build filled in; and
strip returns exactly the original body lines provided the body does not
begin with a wholly blank line. -/
theorem c4_roundtrip (env : Env) (np rc : Chars)
    (href : refShape np) (hd : dateShape env.today) :
    parseInvokerHeader (freshSignedContent env np rc) =
      some ⟨invokerVersion, resourceRefOf np, env.today, computeHash rc⟩ ∧
    (leadOkB rc = true →
      stripInvokerHeader (freshSignedContent env np rc) = splitLines rc) := by
  refine ⟨parse_freshSignedContent env np rc href hd, ?_⟩
  intro hlead
  rw [strip_freshSignedContent env np rc href hd, dropWhile_blank_of_leadOk hlead]

theorem c4_roundtrip_witness :
    parseInvokerHeader (freshSignedContent envW scriptNp rcPlain) =
      some ⟨invokerVersion, resourceRefOf scriptNp, envW.today, computeHash rcPlain⟩ ∧
    stripInvokerHeader (freshSignedContent envW scriptNp rcPlain) = splitLines rcPlain :=
  ⟨(c4_roundtrip envW scriptNp rcPlain refShape_scriptNp dateShape_envW).1,
    (c4_roundtrip envW scriptNp rcPlain refShape_scriptNp dateShape_envW).2 (by decide)⟩

theorem prefixB_head {α : Type} [DecidableEq α] (a : α) (l s : List α)
    (h : prefixB (a :: l) s = true) : ∃ t, s = a :: t := by
  cases s with
  | nil => simp [prefixB] at h
  | cons b bs =>
    refine ⟨bs, ?_⟩
    by_cases hab : a = b
    · rw [hab]
    · simp [prefixB, hab] at h

theorem isUnderB_of_append_right (root ext cand : AbsPath)
    (h : isUnderB (root ++ ext) cand = true) : isUnderB root cand = true := by
  induction root generalizing cand with
  | nil => rfl
  | cons s rs ih =>
    cases cand with
    | nil => simp [isUnderB, prefixB] at h
    | cons c cs =>
      simp only [isUnderB, List.cons_append, prefixB] at h ⊢
      by_cases hsc : s = c
      · simp only [hsc, if_true] at h ⊢
        exact ih cs h
      · simp [hsc] at h

/-- C5 (amended).  Whenever single file resolution succeeds, the returned
canonical path has the canonicalized namespace root as an initial segment
(a descendant, possibly the root itself rather than a strict descendant);
the export operations join the raw relative part onto the root without
this check. -/
theorem c5_resolution_confined (env : Env) (np ns : Chars) (cand : AbsPath)
    (h : resolveResourcePath env np = .ok (ns, cand)) :
    ∃ root0, lookupSource env.sources ns = some root0 ∧
      isUnderB (normalizeSegs root0) cand = true := by
  simp only [resolveResourcePath] at h
  split at h
  · simp at h
  next root0 hl =>
    split at h
    · simp at h
    next habs =>
      split at h
      next hcond =>
        split at h
        · simp at h
        next htests =>
          simp only [Except.ok.injEq, Prod.mk.injEq] at h
          obtain ⟨hns, hcand⟩ := h
          subst hns
          subst hcand
          exact ⟨root0, hl, hcond⟩
      next hcond => simp at h

/-- C5 (counterexample).  Resolution of the identifier "." succeeds and
returns the namespace root itself, which is not a strict descendant; and
single file export to "invoker:../escape.py" succeeds and writes outside
the namespace root entirely. -/
theorem c5_strict_descendant_counterexample :
    resolveResourcePath envW ".".toList = .ok (DEFAULT_NAMESPACE, resRoot) ∧
    exportResource envW c5Fs escapeSrc "invoker:../escape.py".toList =
      .ok (writeFile c5Fs escapedDest "hello\n".toList) ∧
    isUnderB resRoot escapedDest = false := by
  refine ⟨by decide, by decide, by decide⟩

theorem c5_resolution_confined_witness :
    ∃ root0, lookupSource envW.sources "invoker".toList = some root0 ∧
      isUnderB (normalizeSegs root0) ["tmp".toList, "res".toList, "util".toList, "a.py".toList] = true :=
  c5_resolution_confined envW "util/a.py".toList "invoker".toList
    ["tmp".toList, "res".toList, "util".toList, "a.py".toList] (by decide)

/-- C6.  For every namespace, an identifier whose relative part is an
absolute path is refused, one canonicalizing outside the namespace root
fails with the traversal error, and one canonicalizing into the reserved
tests subtree fails with the forbidden resource error, with no existence
requirement on the target. -/
theorem c6_sandbox_enforcement (env : Env) (np pns rel : Chars) (root0 : AbsPath)
    (hparse : parseNamespacedPath np = (pns, rel))
    (hroot : lookupSource env.sources pns = some root0) :
    ((parseRelPath rel).1 = true →
      resolveResourcePath env np = .error .absolutePathNotAllowed) ∧
    ((parseRelPath rel).1 = false →
      isUnderB (normalizeSegs root0)
        (normalizeSegs (normalizeSegs root0 ++ (parseRelPath rel).2)) = false →
      resolveResourcePath env np = .error .pathTraversal) ∧
    ((parseRelPath rel).1 = false →
      isUnderB (normalizeSegs root0 ++ [testsSeg])
        (normalizeSegs (normalizeSegs root0 ++ (parseRelPath rel).2)) = true →
      resolveResourcePath env np = .error .forbiddenResource) := by
  refine ⟨?_, ?_, ?_⟩
  · intro h1
    simp [resolveResourcePath, hparse, hroot, h1]
  · intro h1 h2
    simp [resolveResourcePath, hparse, hroot, h1, h2]
  · intro h1 h2
    have h3 := isUnderB_of_append_right (normalizeSegs root0) [testsSeg] _ h2
    simp [resolveResourcePath, hparse, hroot, h1, h2, h3]

theorem c6_sandbox_enforcement_witness :
    resolveResourcePath envW "/etc/passwd".toList = .error .absolutePathNotAllowed ∧
    resolveResourcePath envW "../x".toList = .error .pathTraversal ∧
    resolveResourcePath envW "tests/fixture.py".toList = .error .forbiddenResource :=
  ⟨(c6_sandbox_enforcement envW "/etc/passwd".toList DEFAULT_NAMESPACE
      "/etc/passwd".toList resRoot (by decide) (by decide)).1 (by decide),
    (c6_sandbox_enforcement envW "../x".toList DEFAULT_NAMESPACE
      "../x".toList resRoot (by decide) (by decide)).2.1 (by decide) (by decide),
    (c6_sandbox_enforcement envW "tests/fixture.py".toList DEFAULT_NAMESPACE
      "tests/fixture.py".toList resRoot (by decide) (by decide)).2.2 (by decide) (by decide)⟩

/-- C4 (counterexample).  For a body beginning with a blank line, strip
applied to the freshly built file does not return the original body
lines: the leading blank line is dropped. -/
theorem c4_strip_counterexample :
    stripInvokerHeader (freshSignedContent envW scriptNp rcBlankLeading) =
      splitLines rcPlain ∧
    stripInvokerHeader (freshSignedContent envW scriptNp rcBlankLeading) ≠
      splitLines rcBlankLeading := by
  constructor
  · decide
  · decide

/-- C7 (amended).  For every resource whose content does not begin with a
wholly blank line, materializing a signed file and reconciling the
untouched result is a filesystem no-op, twice over, and no .bak appears. -/
theorem c7_reconcile_idempotent (env : Env) (fs : Fs) (np : Chars) (dst : AbsPath)
    (ns : Chars) (rp : AbsPath) (rc : Chars)
    (hres : resolveResourcePath env np = .ok (ns, rp))
    (hread : readFile fs rp = some rc)
    (href : refShape np) (hd : dateShape env.today) (hlead : leadOkB rc = true)
    (hne1 : rp ≠ dst) (hne2 : rp ≠ bakPath dst) (hdst : dst ≠ [])
    (hbak : readFile fs (bakPath dst) = none) :
    importResource env fs np dst true =
      .ok (writeFile fs dst (freshSignedContent env np rc)) ∧
    rebuildResource env (writeFile fs dst (freshSignedContent env np rc)) np dst true =
      .ok (writeFile fs dst (freshSignedContent env np rc)) ∧
    readFile (writeFile fs dst (freshSignedContent env np rc)) (bakPath dst) = none := by
  have himp := importResource_ok env fs np dst ns rp rc hres hread
  have hbakne : bakPath dst ≠ dst := bakPath_ne_self dst hdst
  have hread1 : readFile (writeFile fs dst (freshSignedContent env np rc)) rp = some rc := by
    rw [readFile_writeFile_ne fs dst rp _ hne1, hread]
  have hc : readFile (writeFile fs dst (freshSignedContent env np rc)) dst =
      some (freshSignedContent env np rc) := readFile_writeFile_self fs dst _
  have hh := computeFileHash_fresh env np rc href hd hlead
  refine ⟨himp, ?_, ?_⟩
  · exact (rebuildResource_branches env _ np dst _ (computeHash rc) (computeHash rc)
      ns rp rc hc hres hread1 hh hne1 hne2).2.2 rfl rfl
  · rw [readFile_writeFile_ne fs dst _ _ hbakne, hbak]

theorem c7_reconcile_idempotent_witness :
    importResource envW c7Fs scriptNp c7Dst true =
      .ok (writeFile c7Fs c7Dst (freshSignedContent envW scriptNp rcPlain)) ∧
    rebuildResource envW (writeFile c7Fs c7Dst (freshSignedContent envW scriptNp rcPlain))
        scriptNp c7Dst true =
      .ok (writeFile c7Fs c7Dst (freshSignedContent envW scriptNp rcPlain)) ∧
    readFile (writeFile c7Fs c7Dst (freshSignedContent envW scriptNp rcPlain))
      (bakPath c7Dst) = none :=
  c7_reconcile_idempotent envW c7Fs scriptNp c7Dst DEFAULT_NAMESPACE scriptResPath rcPlain
    (by decide) (by decide) refShape_scriptNp dateShape_envW (by decide)
    (by decide) (by decide) (by decide) (by decide)

/-- C7 (counterexample).  For a resource beginning with a blank line, the
very first reconciliation of the untouched, freshly materialized file
already creates a .bak: the claim fails as stated for every resource. -/
theorem c7_blank_leading_counterexample :
    importResource envW c7BlankFs scriptNp c7Dst true = .ok c7BlankFs1 ∧
    rebuildResource envW c7BlankFs1 scriptNp c7Dst true =
      .ok (writeFile (renameFile c7BlankFs1 c7Dst (bakPath c7Dst)) c7Dst
        (freshSignedContent envW scriptNp rcBlankLeading)) ∧
    readFile (writeFile (renameFile c7BlankFs1 c7Dst (bakPath c7Dst)) c7Dst
        (freshSignedContent envW scriptNp rcBlankLeading)) (bakPath c7Dst) =
      some (freshSignedContent envW scriptNp rcBlankLeading) := by
  refine ⟨by decide, ?_, by decide⟩
  exact (rebuildResource_branches envW c7BlankFs1 scriptNp c7Dst
    (freshSignedContent envW scriptNp rcBlankLeading)
    (computeHash rcBlankLeading) (computeHash rcPlain)
    DEFAULT_NAMESPACE scriptResPath rcBlankLeading
    (by decide) (by decide) (by decide) (by decide) (by decide) (by decide)).1 (by decide)

/-!
Lemmas for whole project rebuild.
-/

theorem importResource_untouched (env : Env) (fs : Fs) (np : Chars) (dst : AbsPath)
    (s : Bool) (fs2 : Fs) (h : importResource env fs np dst s = .ok fs2)
    (p : AbsPath) (hp : p ≠ dst) : readFile fs2 p = readFile fs p := by
  simp only [importResource] at h
  split at h
  · simp at h
  · split at h
    · simp at h
    · split at h
      · split at h
        · simp at h
        · simp only [Except.ok.injEq] at h
          subst h
          exact readFile_writeFile_ne fs dst p _ hp
      · simp only [Except.ok.injEq] at h
        subst h
        exact readFile_writeFile_ne fs dst p _ hp

theorem rebuildResource_untouched (env : Env) (fs : Fs) (rn : Chars) (q : AbsPath)
    (s : Bool) (fs2 : Fs) (h : rebuildResource env fs rn q s = .ok fs2)
    (p : AbsPath) (hp1 : p ≠ q) (hp2 : p ≠ bakPath q) :
    readFile fs2 p = readFile fs p := by
  simp only [rebuildResource] at h
  split at h
  · simp at h
  · split at h
    · simp at h
    · split at h
      · simp at h
      · split at h
        · have := importResource_untouched env _ rn q s fs2 h p hp1
          rw [this, readFile_renameFile_ne fs q (bakPath q) p hp1 hp2]
        · split at h
          · exact importResource_untouched env fs rn q s fs2 h p hp1
          · simp only [Except.ok.injEq] at h
            subst h
            rfl

theorem foldl_rebuildStep_error (env : Env) (ps : List AbsPath) (e : Err) :
    ps.foldl (rebuildStep env) (.error e) = .error e := by
  induction ps with
  | nil => rfl
  | cons q rest ih => simpa [rebuildStep] using ih

theorem rebuildStep_untouched (env : Env) (fs : Fs) (q : AbsPath) (fs1 : Fs)
    (h : rebuildStep env (.ok fs) q = .ok fs1)
    (p : AbsPath) (hp1 : p ≠ q) (hp2 : p ≠ bakPath q) :
    readFile fs1 p = readFile fs p := by
  simp only [rebuildStep] at h
  split at h
  · simp at h
  · split at h
    · simp only [Except.ok.injEq] at h
      subst h
      rfl
    · split at h
      · simp only [Except.ok.injEq] at h
        subst h
        rfl
      · exact rebuildResource_untouched env fs _ q true fs1 h p hp1 hp2

theorem prefixB_append_left {α : Type} [DecidableEq α] (a l1 l2 : List α)
    (h : prefixB l1 l2 = true) : prefixB (a ++ l1) (a ++ l2) = true := by
  induction a with
  | nil => simpa using h
  | cons x xs ih => simpa [prefixB] using ih

theorem endsWithB_append_bak (s : Seg) (h : endsWithB pyExt s = true) :
    endsWithB pyBakExt (s ++ ".bak".toList) = true := by
  unfold endsWithB at h ⊢
  rw [List.reverse_append]
  rw [show pyBakExt.reverse = ".bak".toList.reverse ++ pyExt.reverse from by decide]
  exact prefixB_append_left _ _ _ h

theorem foldRebuild_untouched (env : Env) (ps : List AbsPath)
    (hps : ∀ q ∈ ps, endsWithB pyExt (lastSegOf q) = true ∧ q ≠ []) :
    ∀ fs fs2, ps.foldl (rebuildStep env) (.ok fs) = .ok fs2 →
    ∀ p, endsWithB pyExt (lastSegOf p) = false →
      endsWithB pyBakExt (lastSegOf p) = false →
      readFile fs2 p = readFile fs p := by
  induction ps with
  | nil =>
    intro fs fs2 h p _ _
    simp only [List.foldl_nil, Except.ok.injEq] at h
    subst h
    rfl
  | cons q rest ih =>
    intro fs fs2 h p hpy hpyb
    obtain ⟨hqpy, hqne⟩ := hps q (by simp)
    rw [List.foldl_cons] at h
    cases hstep : rebuildStep env (.ok fs) q with
    | error e =>
      rw [hstep, foldl_rebuildStep_error] at h
      simp at h
    | ok fs1 =>
      rw [hstep] at h
      have hrest := ih (fun r hr => hps r (by simp [hr])) fs1 fs2 h p hpy hpyb
      have hp1 : p ≠ q := by
        intro hpq
        rw [hpq] at hpy
        rw [hqpy] at hpy
        cases hpy
      have hp2 : p ≠ bakPath q := by
        intro hpq
        have hb : endsWithB pyBakExt (lastSegOf (bakPath q)) = true := by
          rw [lastSegOf_bakPath q hqne]
          exact endsWithB_append_bak _ hqpy
        rw [hpq, hb] at hpyb
        cases hpyb
      rw [hrest, rebuildStep_untouched env fs q fs1 hstep p hp1 hp2]

theorem foldRebuild_skip (env : Env) (ps : List AbsPath) (fs : Fs)
    (hall : ∀ q ∈ ps, ∃ c, readFile fs q = some c ∧ parseInvokerHeader c = none) :
    ps.foldl (rebuildStep env) (.ok fs) = .ok fs := by
  induction ps with
  | nil => rfl
  | cons q rest ih =>
    obtain ⟨c, hrc, hpc⟩ := hall q (by simp)
    have hstep : rebuildStep env (.ok fs) q = .ok fs := by
      simp [rebuildStep, hrc, hpc]
    rw [List.foldl_cons, hstep]
    exact ih (fun r hr => hall r (by simp [hr]))

theorem readFile_isSome_of_mem (fs : Fs) (p : AbsPath) (hp : p ∈ fs.map Prod.fst) :
    ∃ c, readFile fs p = some c := by
  induction fs with
  | nil => simp at hp
  | cons e rest ih =>
    obtain ⟨q, d⟩ := e
    by_cases hq : q = p
    · exact ⟨d, by simp [readFile, hq]⟩
    · simp only [List.map_cons, List.mem_cons] at hp
      rcases hp with hp | hp

      · exact absurd hp.symm hq
      · simpa [readFile, hq] using ih hp

theorem pyFilesOf_spec (fs : Fs) (root : AbsPath) (q : AbsPath)
    (hq : q ∈ pyFilesOf fs root) :
    endsWithB pyExt (lastSegOf q) = true ∧ q ≠ [] ∧ q ∈ fs.map Prod.fst := by
  unfold pyFilesOf at hq
  rw [List.mem_filter] at hq
  obtain ⟨hmem, hcond⟩ := hq
  simp only [Bool.and_eq_true, decide_eq_true_eq] at hcond
  refine ⟨hcond.2, ?_, hmem⟩
  intro hnil
  subst hnil
  simp at hcond

/-- C9 (amended).  After a passing version check, whole project rebuild
enumerates exactly the Python (.py) files under the root: files whose
name does not end in .py are never touched (even when they carry a
header), a run over only headerless Python files changes nothing and
raises no error, and when a single header bearing Python file is
enumerated it is reconciled by the three hash rule on its header
resource reference. -/
theorem c9_py_only_enumeration (env : Env) (fs : Fs) (root : AbsPath)
    (hv : checkVersionStrict fs root = .ok ()) :
    (∀ fs2, rebuildProject env fs root = .ok fs2 →
      ∀ p, endsWithB pyExt (lastSegOf p) = false →
        endsWithB pyBakExt (lastSegOf p) = false →
        readFile fs2 p = readFile fs p) ∧
    ((∀ q c, q ∈ pyFilesOf fs root → readFile fs q = some c →
        parseInvokerHeader c = none) →
      rebuildProject env fs root = .ok fs) ∧
    (∀ q c fields, pyFilesOf fs root = [q] → readFile fs q = some c →
      parseInvokerHeader c = some fields → fields.resource ≠ [] →
      rebuildProject env fs root = rebuildResource env fs fields.resource q true) := by
  refine ⟨?_, ?_, ?_⟩
  · intro fs2 h p hpy hpyb
    simp only [rebuildProject, hv] at h
    exact foldRebuild_untouched env (pyFilesOf fs root)
      (fun q hq => ⟨(pyFilesOf_spec fs root q hq).1, (pyFilesOf_spec fs root q hq).2.1⟩)
      fs fs2 h p hpy hpyb
  · intro hall
    simp only [rebuildProject, hv]
    refine foldRebuild_skip env (pyFilesOf fs root) fs (fun q hq => ?_)
    obtain ⟨c, hc⟩ := readFile_isSome_of_mem fs q (pyFilesOf_spec fs root q hq).2.2
    exact ⟨c, hc, hall q c hq hc⟩
  · intro q c fields hlist hread hparse hresne
    simp only [rebuildProject, hv, hlist, List.foldl_cons, List.foldl_nil]
    simp [rebuildStep, hread, hparse, hresne]

theorem c9_py_only_enumeration_witness :
    rebuildProject envW c9Fs projRoot =
      rebuildResource envW c9Fs invNp projInvPath true :=
  (c9_py_only_enumeration envW c9Fs projRoot (by decide)).2.2 projInvPath freshInv
    ⟨invokerVersion, invNp, envW.today, computeHash rcPlain⟩
    (by decide) (by decide) (by decide) (by decide)

/-- C9 (counterexample).  A header bearing, drifted text file notes.txt is
left byte for byte unmodified by a successful whole project rebuild, and
no notes.txt.bak appears: rebuild does not enumerate every text file,
only *.py files. -/
theorem c9_text_file_skipped_counterexample :
    rebuildProject envW c9xFs projRoot = .ok c9xFs ∧
    computeFileHash notesDrifted = .ok (computeHash rcPlain, computeHash rcEdited) ∧
    computeHash rcPlain ≠ computeHash rcEdited ∧
    readFile c9xFs (bakPath notesPath) = none := by
  refine ⟨by decide, by decide, by decide, by decide⟩

/-- C8 (amended).  For the scenario directory whose entry point declares
no manifest, auto discovery returns [entry, "loader.py"]; README.md is
not included, because .md is not among the recognized configuration
extensions (.yaml, .yml, .json, .toml); and the persisted declaration
appended to the entry point file lists exactly "loader.py". -/
theorem c8_autodiscovery_scenario (initContent lc rd : Chars)
    (hman : findManifestFrom initContent = none) :
    getModuleFiles (scenarioDir initContent lc rd) true =
      .ok [initSeg, "loader.py".toList] ∧
    (containsSub invokerFilesLit initContent = false →
      updateInitInvokerFiles initContent [initSeg, "loader.py".toList] =
        (if endsWithB ['\n'] initContent then initContent else initContent ++ ['\n'])
          ++ '\n' :: manifestBlockText ["loader.py".toList]) := by
  constructor
  · simp only [getModuleFiles, scenarioDir, lookupEntry, if_pos]
    rw [hman]
    rfl
  · intro hsub
    simp only [updateInitInvokerFiles, hsub, Bool.false_eq_true, if_false]
    rfl

/-- C8 (counterexample).  In the concrete scenario the returned manifest
is [entry, "loader.py"], which omits README.md: the claimed result
[entry, "loader.py", "README.md"] is not produced. -/
theorem c8_readme_omitted_counterexample :
    getModuleFiles (scenarioDir c8Init c8Loader c8Readme) true =
      .ok [initSeg, "loader.py".toList] ∧
    "README.md".toList ∉ [initSeg, "loader.py".toList] ∧
    [initSeg, "loader.py".toList] ≠
      [initSeg, "loader.py".toList, "README.md".toList] := by
  refine ⟨by decide, by decide, by decide⟩

theorem c8_autodiscovery_scenario_witness :
    getModuleFiles (scenarioDir "data loader\n".toList c8Loader c8Readme) true =
      .ok [initSeg, "loader.py".toList] ∧
    updateInitInvokerFiles "data loader\n".toList [initSeg, "loader.py".toList] =
      (if endsWithB ['\n'] ("data loader\n".toList : Chars)
        then ("data loader\n".toList : Chars)
        else "data loader\n".toList ++ ['\n'])
        ++ '\n' :: manifestBlockText ["loader.py".toList] :=
  ⟨(c8_autodiscovery_scenario "data loader\n".toList c8Loader c8Readme (by decide)).1,
    (c8_autodiscovery_scenario "data loader\n".toList c8Loader c8Readme (by decide)).2
      (by decide)⟩

theorem mem_insertSorted (a x : Chars) (l : List Chars) :
    a ∈ insertSorted x l ↔ a = x ∨ a ∈ l := by
  induction l with
  | nil => simp [insertSorted]
  | cons y ys ih =>
    by_cases hle : lexLeB x y = true
    · simp [insertSorted, hle]
    · simp only [insertSorted, hle, Bool.false_eq_true, if_false, List.mem_cons, ih]
      tauto

theorem mem_sortChars (a : Chars) (l : List Chars) :
    a ∈ sortChars l ↔ a ∈ l := by
  induction l with
  | nil => simp [sortChars]
  | cons x xs ih =>
    rw [show sortChars (x :: xs) = insertSorted x (sortChars xs) from rfl,
      mem_insertSorted, ih]
    simp

theorem mem_foldl_append {α β : Type} (g : β → List α) (exts : List β)
    (acc0 : List α) (n : α) :
    n ∈ exts.foldl (fun acc ext => acc ++ g ext) acc0 ↔
      n ∈ acc0 ∨ ∃ ext ∈ exts, n ∈ g ext := by
  induction exts generalizing acc0 with
  | nil => simp
  | cons e es ih =>
    rw [List.foldl_cons, ih]
    simp only [List.mem_append, List.mem_cons]
    constructor
    · rintro (⟨h | h⟩ | ⟨ext, hm, hn⟩)
      · exact Or.inl h
      · exact Or.inr ⟨e, Or.inl rfl, h⟩
      · exact Or.inr ⟨ext, Or.inr hm, hn⟩
    · rintro (h | ⟨ext, (rfl | hm), hn⟩)
      · exact Or.inl (Or.inl h)
      · exact Or.inl (Or.inr hn)
      · exact Or.inr ⟨ext, hm, hn⟩

theorem config_py_clash (n ext : Chars) (hext : ext ∈ configExts)
    (hpy : endsWithB pyExt n = true) (hcfg : endsWithB ext n = true) : False := by
  unfold endsWithB at hpy hcfg
  rw [show (pyExt : Chars).reverse = 'y' :: ['p', '.'] from by decide] at hpy
  obtain ⟨t, ht⟩ := prefixB_head 'y' _ _ hpy
  have hly : ('l' : Char) ≠ 'y' := by decide
  have hny : ('n' : Char) ≠ 'y' := by decide
  simp only [configExts, List.mem_cons, List.not_mem_nil, or_false] at hext
  rcases hext with rfl | rfl | rfl | rfl
  · rw [show (".yaml".toList : Chars).reverse = ['l', 'm', 'a', 'y', '.'] from by decide,
      ht] at hcfg
    simp [prefixB, hly] at hcfg
  · rw [show (".yml".toList : Chars).reverse = ['l', 'm', 'y', '.'] from by decide,
      ht] at hcfg
    simp [prefixB, hly] at hcfg
  · rw [show (".json".toList : Chars).reverse = ['n', 'o', 's', 'j', '.'] from by decide,
      ht] at hcfg
    simp [prefixB, hny] at hcfg
  · rw [show (".toml".toList : Chars).reverse = ['l', 'm', 'o', 't', '.'] from by decide,
      ht] at hcfg
    simp [prefixB, hly] at hcfg

/-- C10.  A source that is not syntactically valid Python carries the
empty parse result: has_subclass_of answers false for every module and
class name rather than raising, and auto discovery never includes a
Python file whose content failed to parse. -/
theorem c10_invalid_source_no_subclass :
    (∀ m c : Chars, hasSubclassOf none m c = false) ∧
    (∀ d : ModuleDir, (∀ e ∈ d, e.pyAst = none) →
      ∀ n, endsWithB pyExt n = true → n ∉ discoverModuleFiles d) := by
  constructor
  · intro m c
    rfl
  · intro d hall n hpy hmem
    unfold discoverModuleFiles at hmem
    rw [mem_sortChars, List.mem_append] at hmem
    rcases hmem with hcode | hcfg
    · rw [List.mem_map] at hcode
      obtain ⟨e, he, hname⟩ := hcode
      rw [List.mem_filter] at he
      obtain ⟨hed, hpred⟩ := he
      have := hall e hed
      rw [this] at hpred
      simp [fileHasInvokerModuleSubclass, hasSubclassOf] at hpred
    · rw [mem_foldl_append] at hcfg
      rcases hcfg with h | ⟨ext, hext, hn⟩
      · simp at h
      · rw [List.mem_map] at hn
        obtain ⟨e, he, hname⟩ := hn
        rw [List.mem_filter] at he
        exact config_py_clash n ext hext hpy (hname ▸ he.2)

theorem c10_invalid_source_no_subclass_witness :
    hasSubclassOf none "invoker".toList "InvokerModule".toList = false ∧
    "bad.py".toList ∉
      discoverModuleFiles [⟨"bad.py".toList, "def broken(\n".toList, none⟩] :=
  ⟨c10_invalid_source_no_subclass.1 "invoker".toList "InvokerModule".toList,
    c10_invalid_source_no_subclass.2 [⟨"bad.py".toList, "def broken(\n".toList, none⟩]
      (by decide) "bad.py".toList (by decide)⟩

end Invoker
